import Mathlib

/-!
Verification of the MicroDrop versioned document model
(`microdrop/protocol.py`, `microdrop/experiment_log.py`).

This file gives a shallow embedding of the `Protocol`/`Step` document, the
parallel `ExperimentLog` document, their version-upgrade state machines, the
dictionary (JSON-form) converters, the fault-isolating serializer and the
per-record decode loops of the loaders, together with proofs of the testable
properties stated in the design document.

Modelling conventions:
* Python dictionaries are modelled as association lists; the theorems carry
  `Nodup` hypotheses on the key lists exactly where the source relies on
  dict semantics (unique keys).
* Schema versions (`microdrop_utility.Version`, an external dependency) are
  modelled as `(major, minor, micro)` triples with lexicographic order; the
  source stores them as strings of the form `"major.minor.micro"`
  (`str(Version(0,2)) == "0.2.0"`), a bijective encoding, so the model keeps
  the parsed triple.
* `pickle.dumps`/`yaml.dump` are modelled as injective tagging constructors
  on the payload universe, and `pickle.loads`/`yaml.load` as their partial
  inverses; `Payload.corrupt` stands for a byte string that neither decoder
  accepts.
* Object identity (Python `is`) is modelled by a `sid : Nat` field on `Step`;
  operations that allocate a new `Step` object take the fresh identifier as
  an explicit argument.
* GUI signal emission (`emit_signal`) has no effect on the document state and
  is not modelled.
-/

namespace Microdrop

/-! ## Versions (`microdrop_utility.Version`, external dependency) -/

/-- A three-component schema version, as stored in the `version` attribute of
persisted documents (`str(Version(major, minor, micro))`). -/
structure Version where
  major : Nat
  minor : Nat
  micro : Nat
deriving DecidableEq, Repr

/-- Lexicographic strict order on versions (major, then minor, then micro). -/
def Version.lt (a b : Version) : Bool :=
  a.major < b.major ||
    (a.major = b.major &&
      (a.minor < b.minor || (a.minor = b.minor && a.micro < b.micro)))

theorem Version.lt_irrefl (v : Version) : Version.lt v v = false := by
  simp [Version.lt]

theorem Version.eq_of_not_lt_not_gt (a b : Version)
    (h1 : Version.lt a b = false) (h2 : Version.lt b a = false) : a = b := by
  cases a with
  | mk a1 a2 a3 =>
    cases b with
    | mk b1 b2 b3 =>
      simp only [Version.lt, Bool.or_eq_false_iff, Bool.and_eq_false_iff,
        decide_eq_false_iff_not, not_lt] at h1 h2
      simp only [Version.mk.injEq]
      omega

/-- `Protocol.class_version = str(Version(0,2))`, i.e. `"0.2.0"`. -/
def protocolClassVersion : Version := ⟨0, 2, 0⟩

/-- `ExperimentLog.class_version = str(Version(0, 3, 0))`. -/
def logClassVersion : Version := ⟨0, 3, 0⟩

/-! ## Payload universe

The value universe for per-plugin payloads, covering the shapes that the
source manipulates: plain strings and numbers, dictionaries, step-option
objects implementing the `to_dict`/`from_dict` contract, serialized byte/text
strings produced by `pickle.dumps`/`yaml.dump`, undecodable byte strings, and
Python `None`. -/

inductive Payload where
  /-- A plain Python string. -/
  | s : String → Payload
  /-- A plain Python number. -/
  | n : Int → Payload
  /-- A Python dictionary keyed by strings. -/
  | dict : List (String × Payload) → Payload
  /-- A step-options object of class `cls` implementing the
  `to_dict`/`from_dict` contract, with attribute dictionary `fields`:
  `to_dict()` returns `fields` plus a `__class__` entry naming `cls`, and the
  reciprocal class method `from_dict` rebuilds the object from `fields`. -/
  | obj : (cls : String) → (fields : List (String × Payload)) → Payload
  /-- The byte string `pickle.dumps(q, -1)`. -/
  | pickleStr : Payload → Payload
  /-- The text string `yaml.dump(q)`. -/
  | yamlStr : Payload → Payload
  /-- A byte string that neither `pickle.loads` nor `yaml.load` accepts. -/
  | corrupt : String → Payload
  /-- Python `None`. -/
  | pynone : Payload

/-- `pickle.loads`: inverts `pickle.dumps`, raises on anything else. -/
def pickleLoads : Payload → Option Payload
  | .pickleStr q => some q
  | _ => none

/-- `yaml.load`: inverts `yaml.dump`; pickled byte strings and corrupt byte
strings make it raise. -/
def yamlLoad : Payload → Option Payload
  | .yamlStr q => some q
  | _ => none

/-- The per-record decode step shared by `Protocol.load` (protocol-wide data,
lines 652-660) and `ExperimentLog.load` (lines 212-223): try `pickle.loads`,
fall back to `yaml.load`, and on failure of both log the error and leave the
value as is. -/
def decodeSerialized (v : Payload) : Payload :=
  match pickleLoads v with
  | some d => d
  | none =>
    match yamlLoad v with
    | some d => d
    | none => v

/-- The legacy-path rewrite applied before the YAML fallback in the step-data
decode loop of `Protocol.load` (lines 667-672): it renames the module path
`gui.dmf_device_controller` to `microdrop.gui.dmf_device_controller` inside
the YAML text.  Our abstract payload alphabet does not distinguish the two
spellings of that module path, so the rewrite is the identity here. -/
def legacyFixup (v : Payload) : Payload := v

/-- The per-record decode step for step plugin data in `Protocol.load`
(lines 661-675): `pickle.loads`, then `yaml.load` of the rewritten text. -/
def decodeSerializedStep (v : Payload) : Payload :=
  match pickleLoads v with
  | some d => d
  | none =>
    match yamlLoad (legacyFixup v) with
    | some d => d
    | none => v

/-! ## Python-level error taxonomy -/

inductive PyErr where
  | typeError
  | indexError
  | keyError
  | valueError
  | attributeError
  | validationError
  | assertionError
  | futureVersion
  | ioError
deriving DecidableEq, Repr

/-! ## Steps and Protocols -/

/-- One protocol step: a dictionary of per-plugin payloads.  The `sid` field
models Python object identity (`is`); it carries no data. -/
structure Step where
  sid : Nat
  plugin_data : List (String × Payload)

/-- `Step.copy`: a new object (`fresh` identity) holding a deep copy of
`plugin_data` (deep copies are equal as values). -/
def Step.copy (st : Step) (fresh : Nat) : Step :=
  { sid := fresh, plugin_data := st.plugin_data }

/-- The `Protocol` document.  `current_step_number` is an `Int` because
`delete_step` can drive it to `-1` (Python integers are signed). -/
structure Protocol where
  name : Option String
  version : Version
  steps : List Step
  plugin_data : List (String × Payload)
  n_repeats : Nat
  current_step_attempt : Nat
  current_step_number : Int
  current_repetition : Nat

/-- `Protocol.__init__(name)`: one default empty step (a fresh object),
sequential defaults, `version = class_version`. -/
def Protocol.init (name : Option String) (fresh : Nat) : Protocol :=
  { name := name
    version := protocolClassVersion
    steps := [⟨fresh, []⟩]
    plugin_data := []
    n_repeats := 1
    current_step_attempt := 0
    current_step_number := 0
    current_repetition := 0 }

/-- Python `list.insert(i, x)` semantics: a negative index counts from the
end and clamps at `0`; an index past the end appends. -/
def pyInsertIdx (l : List Step) (i : Int) (a : Step) : List Step :=
  l.insertIdx (if 0 ≤ i then min i.toNat l.length else l.length - (-i).toNat) a

/-- `Protocol.insert_step(step_number=None, value=None, notify=True)`:
inserts at the cursor when `step_number` is omitted; the default value is a
fresh empty `Step` (identity `fresh`).  Signal emission is not modelled. -/
def Protocol.insert_step (p : Protocol) (step_number : Option Int)
    (value : Option Step) (fresh : Nat) : Protocol :=
  let i := step_number.getD p.current_step_number
  let v := value.getD ⟨fresh, []⟩
  { p with steps := pyInsertIdx p.steps i v }

/-- `Protocol.goto_step(step_number)`: unconditionally move the cursor. -/
def Protocol.goto_step (p : Protocol) (step_number : Int) : Protocol :=
  { p with current_step_number := step_number }

/-- `Protocol.insert_steps(step_number, count, values)`: `ValueError` when
both `count` and `values` are omitted; `[Step()] * count` builds a list of
`count` references to one fresh default step; the values are inserted in
reverse order at the same index, preserving their order. -/
def Protocol.insert_steps (p : Protocol) (step_number : Int)
    (count : Option Nat) (values : Option (List Step)) (fresh : Nat) :
    Except PyErr Protocol :=
  match values, count with
  | none, none => .error .valueError
  | none, some c =>
    .ok ((List.replicate c (⟨fresh, []⟩ : Step)).reverse.foldl
      (fun q v => q.insert_step (some step_number) (some v) 0) p)
  | some vs, _ =>
    .ok (vs.reverse.foldl
      (fun q v => q.insert_step (some step_number) (some v) 0) p)

/-- `Protocol.delete_step(step_number)`: remove the step at `step_number`;
if the sequence became empty, insert a fresh default `Step` at index `0`
(identity `fresh`) and move the cursor to it; else if the cursor points past
the new end, move it to `step_number - 1`; else re-affirm the cursor. -/
def Protocol.delete_step (p : Protocol) (step_number : Nat) (fresh : Nat) :
    Except PyErr Protocol :=
  match p.steps.get? step_number with
  | none => .error .indexError
  | some _ =>
    if (p.steps.eraseIdx step_number).length = 0 then
      .ok ((({ p with steps := p.steps.eraseIdx step_number }
        : Protocol).insert_step (some 0) (some ⟨fresh, []⟩) fresh).goto_step 0)
    else if p.current_step_number =
        ((p.steps.eraseIdx step_number).length : Int) then
      .ok (({ p with steps := p.steps.eraseIdx step_number }
        : Protocol).goto_step ((step_number : Int) - 1))
    else
      .ok (({ p with steps := p.steps.eraseIdx step_number }
        : Protocol).goto_step p.current_step_number)

/-- One insertion-sorted pass for `sorted(step_ids)` (Python sorts integers
ascending). -/
def insortNat (k : Nat) : List Nat → List Nat
  | [] => [k]
  | a :: rest => if k ≤ a then k :: a :: rest else a :: insortNat k rest

/-- `sorted(step_ids)`. -/
def sortNats (l : List Nat) : List Nat := l.foldr insortNat []

/-- `Protocol.delete_steps(step_ids)`: delete in descending index order.
Each deletion that empties the sequence allocates a fresh default step; the
`k`-th deletion uses identity `freshBase + k`. -/
def Protocol.delete_steps_aux : Protocol → List Nat → Nat →
    Except PyErr Protocol
  | p, [], _ => .ok p
  | p, i :: rest, c => do
    let q ← p.delete_step i c
    Protocol.delete_steps_aux q rest (c + 1)

def Protocol.delete_steps (p : Protocol) (step_ids : List Nat)
    (freshBase : Nat) : Except PyErr Protocol :=
  Protocol.delete_steps_aux p (sortNats step_ids).reverse freshBase

/-- `Protocol.next_step()`: when the cursor is at the last index, insert a
copy of the current step (a new object, identity `fresh`) at the cursor
index and recurse; the recursive call then finds the cursor strictly before
the last index and advances it, which is inlined here.  Otherwise just
advance the cursor.  `current_step()` indexes `steps[cursor]`; the lookup
can only fail when the first branch is taken with `cursor = -1` on an empty
step list, where Python's `steps[-1]` raises `IndexError` as well. -/
def Protocol.next_step (p : Protocol) (fresh : Nat) : Except PyErr Protocol :=
  if p.current_step_number = (p.steps.length : Int) - 1 then
    match p.steps.get? p.current_step_number.toNat with
    | none => .error .indexError
    | some cur =>
      let p1 := p.insert_step (some p.current_step_number)
        (some (cur.copy fresh)) 0
      .ok (p1.goto_step (p1.current_step_number + 1))
  else
    .ok (p.goto_step (p.current_step_number + 1))

/-! ## Dictionary (JSON-form) conversion of a Protocol -/

/-- The dictionary representation produced by `protocol_to_dict` and consumed
by `protocol_from_dict`: top-level keys `name`, `version`, `steps` (a list of
per-step dictionaries keyed by plugin name) and `plugin_data`. -/
structure ProtocolDict where
  name : Option String
  version : Version
  steps : List (List (String × Payload))
  plugin_data : List (String × Payload)

/-- `hasattr(x, 'to_dict')` conversion applied to each step payload by
`protocol_to_dict`: a step-options object is replaced by its `to_dict()`
dictionary, which carries the fully-qualified class name under `__class__`;
every other payload is passed through unchanged. -/
def payloadToDictForm : Payload → Payload
  | .obj cls fields => .dict (("__class__", .s cls) :: fields)
  | q => q

/-- Byte-wise prefix test on character lists. -/
def isPrefixOfB : List Char → List Char → Bool
  | [], _ => true
  | _ :: _, [] => false
  | a :: as, b :: bs => a = b && isPrefixOfB as bs

/-- Byte-wise substring test (Python `needle in haystack` on strings). -/
def hasSubstr (needle : List Char) : List Char → Bool
  | [] => needle.isEmpty
  | c :: rest => isPrefixOfB needle (c :: rest) || hasSubstr needle rest

/-- Python `'__class__' in s` for a string payload `s`. -/
def containsClassTag (str : String) : Bool :=
  hasSubstr "__class__".toList str.toList

/-- Code-point order on strings (Python's string comparison), evaluated on
the character lists. -/
def charListLt : List Char → List Char → Bool
  | [], [] => false
  | [], _ :: _ => true
  | _ :: _, [] => false
  | a :: as, b :: bs => a.toNat < b.toNat || (a.toNat = b.toNat && charListLt as bs)

/-- One insertion pass of the string sort used for `sorted(step_i.plugins)`. -/
def insortStr (k : String) : List String → List String
  | [] => [k]
  | a :: rest =>
    if charListLt k.toList a.toList then k :: a :: rest else a :: insortStr k rest

/-- `sorted(set_of_names)`: Python sorts the set ascending. -/
def sortStrs (l : List String) : List String := l.foldr insortStr []

/-- `sorted(step_i.plugins)` where `plugins = set(plugin_data.keys())`. -/
def Step.sortedPlugins (st : Step) : List String :=
  sortStrs (st.plugin_data.map Prod.fst).dedup

/-- The per-step part of `protocol_to_dict` (`loaded=True`): a dictionary
mapping each plugin name (iterated in sorted order) to `get_data` of that
plugin, with `to_dict`-capable payloads converted.  `get_data` is a plain
dictionary lookup and cannot miss for a name drawn from the key set, hence
the `filterMap`. -/
def stepToDict (st : Step) : List (String × Payload) :=
  st.sortedPlugins.filterMap fun k =>
    (st.plugin_data.lookup k).map fun q => (k, payloadToDictForm q)

/-- `protocol_to_dict(protocol, loaded=True)` (and `Protocol.to_dict`). -/
def protocol_to_dict (p : Protocol) : ProtocolDict :=
  { name := p.name
    version := p.version
    steps := p.steps.map stepToDict
    plugin_data := p.plugin_data }

/-- `VALIDATORS['protocol'].validate`: the Draft-4 schema requires `name`
(a string) and `version` (enum `['0.2.0']`); `steps` may be any array of
objects (the schema's `additionalProperties: False` is misplaced inside
`properties` and so never restricts step keys). -/
def validateProtocolDict (d : ProtocolDict) : Bool :=
  d.name.isSome && d.version = protocolClassVersion

/-- Python `'__class__' in plugin_data_ij` for an arbitrary payload: key test
on a dictionary, substring test on a string, element test on non-container
values raises `TypeError`.  Serialized byte/text strings are assumed not to
contain the literal tag. -/
def hasClassCheck : Payload → Except PyErr Bool
  | .dict kvs => .ok (kvs.any fun kv => kv.1 = "__class__")
  | .s str => .ok (containsClassTag str)
  | .pickleStr _ => .ok false
  | .yamlStr _ => .ok false
  | .corrupt _ => .ok false
  | .n _ => .error .typeError
  | .pynone => .error .typeError
  | .obj _ _ => .error .typeError

/-- Python `del d[key]` / `d.pop(key)` on an association list (all entries
with the key are removed; a dictionary holds it at most once). -/
def eraseKey (key : String) (l : List (String × Payload)) :
    List (String × Payload) :=
  l.filter fun kv => ¬ kv.1 = key

/-- The `__class__` dispatch of `protocol_from_dict` applied to one step
payload: when the payload contains the tag, pop it and hand the remaining
dictionary to the named class's `from_dict` class method (resolved by
`importlib`); by the to-dict contract this rebuilds the step-options object
with that class name and the remaining fields.  Popping from a string raises
`AttributeError` (`str` has no `pop`). -/
def decodePayload (q : Payload) : Except PyErr Payload := do
  let b ← hasClassCheck q
  if b then
    match q with
    | .dict kvs =>
      match kvs.lookup "__class__" with
      | some (.s cls) => .ok (.obj cls (eraseKey "__class__" kvs))
      | some _ => .error .attributeError
      | none => .error .keyError
    | .s _ => .error .attributeError
    | _ => .error .typeError
  else
    .ok q

/-- Effectful `List.mapM` over `Except`, written out for easy unfolding. -/
def mapME {α β : Type} (f : α → Except PyErr β) : List α → Except PyErr (List β)
  | [] => .ok []
  | a :: l => do
    let b ← f a
    let l' ← mapME f l
    .ok (b :: l')

/-- The per-step part of `protocol_from_dict`: build a `Step` from the step
dictionary (`Step.__init__` deep-copies, preserving content), then apply the
`__class__` dispatch to each payload.  Steps rebuilt from a dictionary all
carry object identity `0` (identities only matter for the mutation API). -/
def stepFromDict (sd : List (String × Payload)) : Except PyErr Step := do
  let entries ← mapME (fun kv => do
    let q ← decodePayload kv.2
    pure (kv.1, q)) sd
  pure ⟨0, entries⟩

/-- `protocol_from_dict(protocol_dict)` (and `Protocol.from_dict`):
validate against the schema, build `Protocol(name=...)`, assert the version
matches, replace the steps, run the `__class__` dispatch.  The top-level
`plugin_data` key of the dictionary is never read. -/
def protocol_from_dict (d : ProtocolDict) : Except PyErr Protocol := do
  if ¬ validateProtocolDict d then .error .validationError
  else if ¬ (Protocol.init d.name 0).version = d.version then
    .error .assertionError
  else do
    let steps ← mapME stepFromDict d.steps
    pure { Protocol.init d.name 0 with steps := steps }

/-! ## Fault-isolating serializer (`serialize_protocol`)

The serialization function handed to `serialize_protocol` in the source is a
JSON encoder (`json.dump`/`json.dumps` with the pandas encoder): it fails on
a container exactly when it fails on some member, and never fails on the
`name`/`version` strings or on dictionary keys.  The model therefore takes
the payload-level failure predicate `ok` as the parameter and lifts it
compositionally to steps and to the whole document; `errMsg` gives
`str(exception)` for a failing payload. -/

/-- `serialize_func(step_i)` succeeds iff every payload in the step does. -/
def stepSerOk (ok : Payload → Bool) (sd : List (String × Payload)) : Bool :=
  sd.all fun kv => ok kv.2

/-- `serialize_func(protocol_dict)` succeeds iff every step payload and every
protocol-wide payload does. -/
def protocolDictOk (ok : Payload → Bool) (d : ProtocolDict) : Bool :=
  d.steps.all (stepSerOk ok) && stepSerOk ok d.plugin_data

/-- One entry of `SerializationError.exceptions`:
`{'step': i, 'plugin': name, 'data': payload, 'error': message}`. -/
structure SerExn where
  step : Nat
  plugin : String
  data : Payload
  error : String

/-- First bisection pass: the indices of the steps that individually fail to
serialize (`exception_steps`), indexing from `i0`. -/
def failingStepIdxs (ok : Payload → Bool) :
    Nat → List (List (String × Payload)) → List Nat
  | _, [] => []
  | i, sd :: rest =>
    (if stepSerOk ok sd then [] else [i]) ++ failingStepIdxs ok (i + 1) rest

/-- Second bisection pass: within step `i`, the exception records for each
plugin whose payload individually fails to serialize. -/
def stepSerExns (ok : Payload → Bool) (errMsg : Payload → String) (i : Nat)
    (sd : List (String × Payload)) : List SerExn :=
  sd.filterMap fun kv =>
    if ok kv.2 then none else some ⟨i, kv.1, kv.2, errMsg kv.2⟩

/-- `serialize_protocol(protocol_dict, serialize_func)`: serialize the whole
document; on failure, find the failing steps, then within each failing step
the failing plugin records, and raise `SerializationError` with the
collected records. -/
def serialize_protocol (ok : Payload → Bool) (errMsg : Payload → String)
    (d : ProtocolDict) : Except (List SerExn) Unit :=
  if protocolDictOk ok d then .ok ()
  else
    .error ((failingStepIdxs ok 0 d.steps).foldr
      (fun i acc =>
        (match d.steps.get? i with
         | some sd => stepSerExns ok errMsg i sd
         | none => []) ++ acc) [])

/-- `protocol_dict_remove_exceptions` (via `_protocol_remove_exceptions`,
`inplace=False`): for each exception record, look up the step
(`IndexError` when out of range) and delete the implicated plugin record
(`KeyError` when absent). -/
def protocol_dict_remove_exceptions (d : ProtocolDict)
    (exns : List SerExn) : Except PyErr ProtocolDict :=
  exns.foldlM
    (fun d' e =>
      match d'.steps.get? e.step with
      | none => .error .indexError
      | some sd =>
        if e.plugin ∈ sd.map Prod.fst then
          .ok { d' with steps := d'.steps.set e.step (eraseKey e.plugin sd) }
        else .error .keyError)
    d

/-! ## Protocol upgrade state machine (`Protocol._upgrade`) -/

/-- `yaml.dump` applied to every protocol-wide and per-step payload
(the below-0.1 upgrade step). -/
def dumpEntries (l : List (String × Payload)) : List (String × Payload) :=
  l.map fun kv => (kv.1, Payload.yamlStr kv.2)

/-- `Protocol._upgrade()` as a procedure on the document state: the result
pairs the exception raised (if any) with the state of `self` when the method
exits.  The version is parsed once; `FutureVersionError` is raised before
any mutation; below 0.1 every payload is re-encoded as YAML text and the
version becomes 0.1; below 0.2 the step-attempt counter is reset and the
version becomes 0.2. -/
def Protocol.upgradeProc (p : Protocol) : Option PyErr × Protocol :=
  if Version.lt protocolClassVersion p.version then (some .futureVersion, p)
  else if Version.lt p.version protocolClassVersion then
    let p1 :=
      if Version.lt p.version ⟨0, 1, 0⟩ then
        { p with plugin_data := dumpEntries p.plugin_data
                 steps := p.steps.map fun st =>
                   { st with plugin_data := dumpEntries st.plugin_data }
                 version := ⟨0, 1, 0⟩ }
      else p
    let p2 :=
      if Version.lt p.version ⟨0, 2, 0⟩ then
        { p1 with current_step_attempt := 0, version := ⟨0, 2, 0⟩ }
      else p1
    (none, p2)
  else (none, p)

/-- `Protocol._upgrade()` as a partial function (exception or new state). -/
def Protocol.upgradeStep (p : Protocol) : Except PyErr Protocol :=
  match p.upgradeProc with
  | (some e, _) => .error e
  | (none, q) => .ok q

/-- The post-upgrade decode loops of `Protocol.load` (lines 652-675): decode
every protocol-wide payload and every step payload from its serialized
string form, leaving undecodable values as they are. -/
def Protocol.loadDecode (p : Protocol) : Protocol :=
  { p with
    plugin_data := p.plugin_data.map fun kv => (kv.1, decodeSerialized kv.2)
    steps := p.steps.map fun st =>
      { st with plugin_data :=
          st.plugin_data.map (fun kv => (kv.1, decodeSerializedStep kv.2)) } }

/-! ## ExperimentLog -/

/-- The `ExperimentLog` document.  The transient `filename` attribute set by
`load` is not modelled. -/
structure ExperimentLog where
  directory : Option String
  data : List (List (String × Payload))
  version : Version
  uuid : String
  experiment_id : Option Nat
  metadata : List (String × Payload)

/-- The sentinel key the below-0.1.0 upgrade scans for. -/
def hwSentinel : String := "control board hardware version"

/-- The legacy result keys routed to the inferred control-board plugin. -/
def resultKeys : List String := ["FeedbackResults", "SweepFrequencyResults",
  "SweepVoltageResults"]

/-- The scan for the legacy plugin name: the last record carrying the
sentinel key determines `plugin_name = "wheelerlab.dmf_control_board_" + v`.
String concatenation demands a string value (`TypeError` otherwise; the
model gives no concrete text to pickled/YAML byte strings, so only a plain
string payload succeeds). -/
def scanPluginName (data : List (List (String × Payload))) :
    Except PyErr (Option String) :=
  data.foldlM
    (fun acc rec =>
      match rec.lookup hwSentinel with
      | some (.s hw) => .ok (some ("wheelerlab.dmf_control_board_" ++ hw))
      | some _ => .error .typeError
      | none => .ok acc)
    none

/-- Python `d[k] = v` on an association list: replace the existing entry or
append a new one. -/
def setKey (l : List (String × Payload)) (key : String) (v : Payload) :
    List (String × Payload) :=
  if key ∈ l.map Prod.fst then
    l.map fun kv => if kv.1 = key then (key, v) else kv
  else l ++ [(key, v)]

/-- `new_data[i]["core"][k] = v` with `new_data[i]["core"]` created on
demand. -/
def addToCore (acc : List (String × Payload)) (k : String) (v : Payload) :
    List (String × Payload) :=
  let core := match acc.lookup "core" with
    | some (.dict kvs) => kvs
    | _ => []
  setKey acc "core" (.dict (setKey core k v))

/-- The below-0.1.0 reshape of one flat record: legacy result values are
unpickled (failures logged and skipped) and nested under the inferred plugin
name; everything else accumulates under `"core"`. -/
def reshapeRecord (pname : Option String) (rec : List (String × Payload)) :
    List (String × Payload) :=
  rec.foldl
    (fun acc kv =>
      match pname with
      | some nm =>
        if kv.1 ∈ resultKeys then
          match pickleLoads kv.2 with
          | some d => setKey acc nm (.dict [(kv.1, d)])
          | none => acc
        else addToCore acc kv.1 kv.2
      | none => addToCore acc kv.1 kv.2)
    []

/-- The below-0.1.0 upgrade stage of `ExperimentLog._upgrade`: scan for the
legacy plugin name, reshape every record, serialize every plugin sub-record
to YAML text, move to version 0.1.0. -/
def logStage01 (log : ExperimentLog) : Except PyErr ExperimentLog :=
  if Version.lt log.version ⟨0, 1, 0⟩ then do
    let pname ← scanPluginName log.data
    let nd := log.data.map (reshapeRecord pname)
    let nd2 := nd.map dumpEntries
    .ok { log with data := nd2, version := ⟨0, 1, 0⟩ }
  else .ok log

/-- `ExperimentLog._upgrade()` as a procedure on the document state (result
pairs the raised exception, if any, with the state of `self` on exit).  The
`FutureVersionError` check precedes everything; the below-0.1.0 scan also
precedes any mutation of `self`; the three stage conditions all test the
version parsed on entry.  Below 0.2.0 a fresh uuid (`freshUuid`) is
assigned; below 0.3.0 the metadata is initialized. -/
def ExperimentLog.upgradeProc (log : ExperimentLog) (freshUuid : String) :
    Option PyErr × ExperimentLog :=
  if Version.lt logClassVersion log.version then (some .futureVersion, log)
  else
    match logStage01 log with
    | .error e => (some e, log)
    | .ok l1 =>
      let l2 :=
        if Version.lt log.version ⟨0, 2, 0⟩ then
          { l1 with uuid := freshUuid, version := ⟨0, 2, 0⟩ }
        else l1
      let l3 :=
        if Version.lt log.version ⟨0, 3, 0⟩ then
          { l2 with metadata := [], version := ⟨0, 3, 0⟩ }
        else l2
      (none, l3)

/-- `ExperimentLog._upgrade()` as a partial function. -/
def ExperimentLog.upgradeStep (log : ExperimentLog) (freshUuid : String) :
    Except PyErr ExperimentLog :=
  match log.upgradeProc freshUuid with
  | (some e, _) => .error e
  | (none, q) => .ok q

/-- The bytes `ExperimentLog.save` writes to the `data` file (default
`format='pickle'`): the whole document pickled. -/
inductive LogFile where
  | pickledLog : ExperimentLog → LogFile

/-- `ExperimentLog.save(filename=None, format='pickle')`: when `self.data`
is non-empty, deep-copy the document, serialize each per-plugin value with
`pickle.dumps`, and pickle the copy to the `data` file; when `self.data` is
empty, nothing is written at all (the function only returns the log path).
The result models the content of the written file. -/
def ExperimentLog.save (log : ExperimentLog) : Option LogFile :=
  if log.data.isEmpty then none
  else
    some (.pickledLog
      { log with data :=
          log.data.map fun rec =>
            rec.map fun kv => (kv.1, Payload.pickleStr kv.2) })

/-- `ExperimentLog.load(filename)` applied to the file contents written by
`save` (opening a file that was never written raises `IOError`): unpickle
the document, run `_upgrade` (which may need a fresh uuid), then decode each
per-plugin value, leaving undecodable values as they are. -/
def ExperimentLog.loadFile (freshUuid : String) (file : Option LogFile) :
    Except PyErr ExperimentLog :=
  match file with
  | none => .error .ioError
  | some (.pickledLog out) =>
    match out.upgradeProc freshUuid with
    | (some e, _) => .error e
    | (none, out1) =>
      .ok { out1 with data :=
              out1.data.map fun rec =>
                rec.map fun kv => (kv.1, decodeSerialized kv.2) }

/-! ## ExperimentLog directory id allocation (`_get_next_id`) -/

/-- An immediate entry of the experiment-log directory: its name and the
number of entries inside it. -/
structure LogDir where
  name : String
  n_entries : Nat

/-- Parser for directory names that are decimal numerals
(`microdrop_utility.is_int` / `int(d.name)`; negative numerals can never
affect the result because the running id starts at 0, so the model parses
non-negative numerals, matching the design note). -/
def parseDigits : List Char → Option Nat → Option Nat
  | [], acc => acc
  | c :: rest, acc =>
    if 48 ≤ c.toNat ∧ c.toNat ≤ 57 then
      parseDigits rest (some ((acc.getD 0) * 10 + (c.toNat - 48)))
    else none

def parseNatName (s : String) : Option Nat := parseDigits s.toList none

/-- The loop body of `_get_next_id`: for an integer-named entry with
`i >= experiment_id`, take `i`, incremented when that directory is
non-empty. -/
def nextIdFold (acc : Nat) (d : LogDir) : Nat :=
  match parseNatName d.name with
  | some i => if acc ≤ i then (if d.n_entries ≠ 0 then i + 1 else i) else acc
  | none => acc

/-- `ExperimentLog._get_next_id()` over the listed directory entries (the
filesystem scan itself is not modelled): `experiment_id` starts at 0 and is
folded over the entries in enumeration order. -/
def get_next_id (entries : List LogDir) : Nat :=
  entries.foldl nextIdFold 0

/-! ## General list lemmas used throughout -/

theorem get?_append_middle {α : Type} (A : List α) (s : α) (B : List α) :
    (A ++ s :: B).get? A.length = some s := by
  induction A with
  | nil => rfl
  | cons a as ih => simpa using ih

theorem set_append_middle {α : Type} (A : List α) (s s' : α) (B : List α) :
    (A ++ s :: B).set A.length s' = A ++ s' :: B := by
  induction A with
  | nil => rfl
  | cons a as ih => simpa using ih

theorem insertIdx_append_middle {α : Type} (A : List α) (x : α) (B : List α) :
    (A ++ B).insertIdx A.length x = A ++ x :: B := by
  induction A with
  | nil => rfl
  | cons a as ih => simpa [List.insertIdx_succ_cons] using ih

theorem lookup_cons (x k : String) (v : Payload) (l : List (String × Payload)) :
    ((k, v) :: l).lookup x = if x = k then some v else l.lookup x := by
  by_cases h : x = k
  · simp [List.lookup, h]
  · have hb : (x == k) = false := by simpa using h
    simp [List.lookup, hb, h]

theorem lookup_isSome_iff_mem_keys (l : List (String × Payload)) (x : String) :
    (l.lookup x).isSome ↔ x ∈ l.map Prod.fst := by
  induction l with
  | nil => simp [List.lookup]
  | cons kv rest ih =>
    cases kv with
    | mk k v =>
      rw [lookup_cons]
      by_cases h : x = k <;> simp [h, ih]

theorem lookup_eq_none_of_not_mem_keys (l : List (String × Payload))
    (x : String) (h : x ∉ l.map Prod.fst) : l.lookup x = none := by
  cases hl : l.lookup x with
  | none => rfl
  | some q =>
    exact absurd ((lookup_isSome_iff_mem_keys l x).mp (by simp [hl])) h

theorem mem_of_lookup_eq_some (l : List (String × Payload)) (x : String)
    (q : Payload) (h : l.lookup x = some q) : (x, q) ∈ l := by
  induction l with
  | nil => simp [List.lookup] at h
  | cons kv rest ih =>
    cases kv with
    | mk k v =>
      rw [lookup_cons] at h
      by_cases hx : x = k
      · rw [if_pos hx] at h
        subst hx
        cases h
        exact List.mem_cons_self _ _
      · rw [if_neg hx] at h
        exact List.mem_cons_of_mem _ (ih h)

/-! ## C9: directory id allocation -/

/-- An entry whose integer name (if any) is strictly below `M`. -/
def smallDir (M : Nat) (d : LogDir) : Bool :=
  (parseNatName d.name).all fun j => decide (j < M)

theorem nextIdFold_some (acc : Nat) (d : LogDir) (i : Nat)
    (h : parseNatName d.name = some i) :
    nextIdFold acc d = if acc ≤ i then (if d.n_entries ≠ 0 then i + 1 else i) else acc := by
  unfold nextIdFold
  rw [h]

theorem nextIdFold_none (acc : Nat) (d : LogDir)
    (h : parseNatName d.name = none) : nextIdFold acc d = acc := by
  unfold nextIdFold
  rw [h]

theorem foldl_nextId_le (M : Nat) (l : List LogDir)
    (hl : l.all (smallDir M) = true) :
    ∀ acc, acc ≤ M → l.foldl nextIdFold acc ≤ M := by
  induction l with
  | nil => intro acc h; exact h
  | cons d rest ih =>
    intro acc hacc
    rw [List.all_cons, Bool.and_eq_true] at hl
    refine ih hl.2 _ ?_
    cases hpn : parseNatName d.name with
    | none => rw [nextIdFold_none acc d hpn]; exact hacc
    | some j =>
      have hj : j < M := by
        have := hl.1
        rw [smallDir, hpn] at this
        simpa using this
      rw [nextIdFold_some acc d j hpn]
      split
      · split <;> omega
      · exact hacc

theorem foldl_nextId_skip (M : Nat) (l : List LogDir)
    (hl : l.all (smallDir M) = true) :
    ∀ acc, M ≤ acc → l.foldl nextIdFold acc = acc := by
  induction l with
  | nil => intro acc _; rfl
  | cons d rest ih =>
    intro acc hacc
    rw [List.all_cons, Bool.and_eq_true] at hl
    have hstep : nextIdFold acc d = acc := by
      cases hpn : parseNatName d.name with
      | none => exact nextIdFold_none acc d hpn
      | some j =>
        have hj : j < M := by
          have := hl.1
          rw [smallDir, hpn] at this
          simpa using this
        rw [nextIdFold_some acc d j hpn, if_neg (by omega)]
    rw [List.foldl_cons, hstep]
    exact ih hl.2 acc hacc

/-- C9.  `_get_next_id` over any enumeration of a directory set whose
integer names are dominated by the entry named `M` yields `M + 1` when that
entry's directory is non-empty and `M` when it is empty — independent of the
enumeration order (the order is captured by the arbitrary split
`l1 ++ dM :: l2`).  In particular, subdirectories `0` (empty) and `1`
(non-empty) give `experiment_id = 2` (see the witness). -/
theorem c9_get_next_id (l1 l2 : List LogDir) (dM : LogDir) (M : Nat)
    (hname : parseNatName dM.name = some M)
    (h1 : l1.all (smallDir M) = true) (h2 : l2.all (smallDir M) = true) :
    get_next_id (l1 ++ dM :: l2) =
      if dM.n_entries ≠ 0 then M + 1 else M := by
  unfold get_next_id
  rw [List.foldl_append, List.foldl_cons]
  have hacc1 : l1.foldl nextIdFold 0 ≤ M := foldl_nextId_le M l1 h1 0 (Nat.zero_le M)
  have hstep : nextIdFold (l1.foldl nextIdFold 0) dM =
      if dM.n_entries ≠ 0 then M + 1 else M := by
    rw [nextIdFold_some _ dM M hname, if_pos hacc1]
  rw [hstep]
  refine foldl_nextId_skip M l2 h2 _ ?_
  split <;> omega

/-- C9 witness: the spec's scenario, in both enumeration orders. -/
theorem c9_witness :
    get_next_id [⟨"0", 0⟩, ⟨"1", 3⟩] = 2 ∧ get_next_id [⟨"1", 3⟩, ⟨"0", 0⟩] = 2 := by
  constructor
  · have h := c9_get_next_id [⟨"0", 0⟩] [] ⟨"1", 3⟩ 1 (by rfl) (by decide) (by decide)
    simpa using h
  · have h := c9_get_next_id [] [⟨"0", 0⟩] ⟨"1", 3⟩ 1 (by rfl) (by decide) (by decide)
    simpa using h

/-! ## C5: future versions fail fast and mutate nothing -/

/-- C5.  A document whose declared version strictly exceeds the supported
class version makes `_upgrade` raise `FutureVersionError`, and the document
state on exit is exactly the input (the raise precedes every mutation). -/
theorem c5_future_version (p : Protocol) (l : ExperimentLog) (u : String)
    (hp : Version.lt protocolClassVersion p.version = true)
    (hl : Version.lt logClassVersion l.version = true) :
    p.upgradeProc = (some PyErr.futureVersion, p) ∧
      l.upgradeProc u = (some PyErr.futureVersion, l) := by
  constructor
  · unfold Protocol.upgradeProc
    rw [if_pos hp]
  · unfold ExperimentLog.upgradeProc
    rw [if_pos hl]

/-- Concrete documents for the witnesses. -/
def sampleFutureProtocol : Protocol :=
  { name := some "sample"
    version := ⟨0, 3, 0⟩
    steps := [⟨0, [("plugin_a", .s "x")]⟩]
    plugin_data := [("plugin_b", .s "y")]
    n_repeats := 1
    current_step_attempt := 0
    current_step_number := 0
    current_repetition := 0 }

def sampleFutureLog : ExperimentLog :=
  { directory := none
    data := [[("core", .dict [("step", .n 0)])]]
    version := ⟨1, 0, 0⟩
    uuid := "uuid-future"
    experiment_id := none
    metadata := [] }

/-- C5 witness. -/
theorem c5_witness :
    sampleFutureProtocol.upgradeProc = (some PyErr.futureVersion, sampleFutureProtocol) ∧
      sampleFutureLog.upgradeProc "u" = (some PyErr.futureVersion, sampleFutureLog) :=
  c5_future_version sampleFutureProtocol sampleFutureLog "u" (by decide) (by decide)

/-! ## C4: upgrade idempotence -/

theorem protocol_upgradeStep_at_class (q : Protocol)
    (h : q.version = protocolClassVersion) : q.upgradeStep = .ok q := by
  unfold Protocol.upgradeStep Protocol.upgradeProc
  rw [h]
  simp [Version.lt_irrefl]

theorem log_upgradeStep_at_class (q : ExperimentLog) (u : String)
    (h : q.version = logClassVersion) : q.upgradeStep u = .ok q := by
  have h2 : Version.lt logClassVersion ⟨0, 1, 0⟩ = false := by decide
  have h3 : Version.lt logClassVersion ⟨0, 2, 0⟩ = false := by decide
  have h4 : Version.lt logClassVersion ⟨0, 3, 0⟩ = false := by decide
  unfold ExperimentLog.upgradeStep ExperimentLog.upgradeProc logStage01
  rw [h]
  simp [Version.lt_irrefl, h2, h3, h4]

theorem protocol_upgradeStep_version (p q : Protocol)
    (h : p.upgradeStep = .ok q) : q.version = protocolClassVersion := by
  unfold Protocol.upgradeStep Protocol.upgradeProc at h
  cases h1 : Version.lt protocolClassVersion p.version with
  | true => simp [h1] at h
  | false =>
    cases h2 : Version.lt p.version protocolClassVersion with
    | true =>
      have h2' : Version.lt p.version ⟨0, 2, 0⟩ = true := h2
      simp only [h1, h2, h2', Bool.false_eq_true, if_false, if_true] at h
      cases h
      rfl
    | false =>
      have hveq : p.version = protocolClassVersion :=
        Version.eq_of_not_lt_not_gt _ _ h2 h1
      simp only [h1, h2, Bool.false_eq_true, if_false] at h
      cases h
      exact hveq

theorem log_upgradeStep_version (l q : ExperimentLog) (u : String)
    (h : l.upgradeStep u = .ok q) : q.version = logClassVersion := by
  unfold ExperimentLog.upgradeStep ExperimentLog.upgradeProc at h
  cases hf : Version.lt logClassVersion l.version with
  | true => simp [hf] at h
  | false =>
    cases hst : logStage01 l with
    | error e => simp [hf, hst] at h
    | ok l1 =>
      simp only [hf, hst, Bool.false_eq_true, if_false] at h
      cases h3 : Version.lt l.version ⟨0, 3, 0⟩ with
      | true =>
        simp only [h3, if_true] at h
        cases h
        rfl
      | false =>
        have hveq : l.version = logClassVersion :=
          Version.eq_of_not_lt_not_gt _ _ h3 hf
        have h01 : Version.lt l.version ⟨0, 1, 0⟩ = false := by
          rw [hveq]; decide
        have h02 : Version.lt l.version ⟨0, 2, 0⟩ = false := by
          rw [hveq]; decide
        unfold logStage01 at hst
        rw [h01] at hst
        simp only [Bool.false_eq_true, if_false, Except.ok.injEq] at hst
        simp only [h02, h3, Bool.false_eq_true, if_false] at h
        cases h
        rw [← hst]
        exact hveq

/-- C4.  For documents whose declared version does not exceed the supported
class version, running the upgrade state machine twice is the same as
running it once (for both `Protocol` and `ExperimentLog`, whatever fresh
uuids the runs draw), and a document already at the current class version is
returned unchanged. -/
theorem c4_upgrade_idempotent (p : Protocol) (l : ExperimentLog)
    (u1 u2 u3 : String)
    (hp : Version.lt protocolClassVersion p.version = false)
    (hl : Version.lt logClassVersion l.version = false) :
    p.upgradeStep.bind Protocol.upgradeStep = p.upgradeStep ∧
      (l.upgradeStep u1).bind (fun x => x.upgradeStep u2) = l.upgradeStep u1 ∧
      (p.version = protocolClassVersion → p.upgradeStep = .ok p) ∧
      (l.version = logClassVersion → l.upgradeStep u3 = .ok l) := by
  refine ⟨?_, ?_, ?_, ?_⟩
  · cases hres : p.upgradeStep with
    | error e => rfl
    | ok q =>
      have hq : q.version = protocolClassVersion :=
        protocol_upgradeStep_version p q hres
      show Except.bind (Except.ok q) Protocol.upgradeStep = Except.ok q
      simp [Except.bind, protocol_upgradeStep_at_class q hq]
  · cases hres : l.upgradeStep u1 with
    | error e => rfl
    | ok q =>
      have hq : q.version = logClassVersion :=
        log_upgradeStep_version l q u1 hres
      show Except.bind (Except.ok q) (fun x => x.upgradeStep u2) = Except.ok q
      simp [Except.bind, log_upgradeStep_at_class q u2 hq]
  · intro h
    exact protocol_upgradeStep_at_class p h
  · intro h
    exact log_upgradeStep_at_class l u3 h

/-- Concrete old-version documents for the C4 witness. -/
def sampleOldProtocol : Protocol :=
  { name := some "old"
    version := ⟨0, 0, 0⟩
    steps := [⟨0, [("plugin_a", .dict [("k", .n 1)])]⟩]
    plugin_data := [("plugin_b", .s "y")]
    n_repeats := 1
    current_step_attempt := 3
    current_step_number := 0
    current_repetition := 0 }

def sampleOldLog : ExperimentLog :=
  { directory := none
    data := [[("step", .n 0), ("time", .n 1)]]
    version := ⟨0, 0, 0⟩
    uuid := "uuid-old"
    experiment_id := some 0
    metadata := [] }

/-- C4 witness. -/
theorem c4_witness :
    sampleOldProtocol.upgradeStep.bind Protocol.upgradeStep =
        sampleOldProtocol.upgradeStep ∧
      (sampleOldLog.upgradeStep "u1").bind (fun x => x.upgradeStep "u2") =
        sampleOldLog.upgradeStep "u1" ∧
      (sampleOldProtocol.version = protocolClassVersion →
        sampleOldProtocol.upgradeStep = .ok sampleOldProtocol) ∧
      (sampleOldLog.version = logClassVersion →
        sampleOldLog.upgradeStep "u3" = .ok sampleOldLog) :=
  c4_upgrade_idempotent sampleOldProtocol sampleOldLog "u1" "u2" "u3"
    (by decide) (by decide)

/-! ## C10: protocol-wide plugin data does not survive the dict round trip -/

/-- C10.  `protocol_to_dict` emits the top-level `plugin_data` key verbatim,
but `protocol_from_dict` never reads it: every successfully reconstructed
`Protocol` has empty protocol-wide `plugin_data`. -/
theorem c10_plugin_data_dropped (d : ProtocolDict) (p q : Protocol) :
    (protocol_from_dict d = .ok p → p.plugin_data = []) ∧
      (protocol_to_dict q).plugin_data = q.plugin_data := by
  refine ⟨?_, rfl⟩
  intro h
  unfold protocol_from_dict at h
  split at h
  · simp at h
  · split at h
    · simp at h
    · cases hm : mapME stepFromDict d.steps with
      | error e =>
        rw [hm] at h
        simp [Except.bind] at h
      | ok steps =>
        rw [hm] at h
        have h2 : Except.ok (ε := PyErr)
            { Protocol.init d.name 0 with steps := steps } = Except.ok p := h
        cases h2
        rfl

/-- A dictionary carrying non-trivial top-level `plugin_data`. -/
def c10Dict : ProtocolDict :=
  ⟨some "w", protocolClassVersion, [[("a", .s "x")]], [("top", .s "z")]⟩

/-- The protocol `protocol_from_dict` reconstructs from `c10Dict`. -/
def c10Result : Protocol :=
  { Protocol.init (some "w") 0 with steps := [⟨0, [("a", .s "x")]⟩] }

/-- C10 witness: the dictionary's `plugin_data` is lost. -/
theorem c10_witness :
    c10Result.plugin_data = [] ∧
      (protocol_to_dict c10Result).plugin_data = c10Result.plugin_data :=
  ⟨(c10_plugin_data_dropped c10Dict c10Result c10Result).1 (by rfl),
    (c10_plugin_data_dropped c10Dict c10Result c10Result).2⟩

/-! ## C3: ExperimentLog save/load round trip -/

theorem log_upgradeProc_at_class (q : ExperimentLog) (u : String)
    (h : q.version = logClassVersion) : q.upgradeProc u = (none, q) := by
  have h2 : Version.lt logClassVersion ⟨0, 1, 0⟩ = false := by decide
  have h3 : Version.lt logClassVersion ⟨0, 2, 0⟩ = false := by decide
  have h4 : Version.lt logClassVersion ⟨0, 3, 0⟩ = false := by decide
  unfold ExperimentLog.upgradeProc logStage01
  rw [h]
  simp [Version.lt_irrefl, h2, h3, h4]

theorem loadFile_at_class (u : String) (out : ExperimentLog)
    (h : out.version = logClassVersion) :
    ExperimentLog.loadFile u (some (.pickledLog out)) =
      .ok { out with data := out.data.map (fun rec => rec.map fun kv => (kv.1, decodeSerialized kv.2)) } := by
  have h1 : ExperimentLog.loadFile u (some (.pickledLog out)) =
      (match out.upgradeProc u with
       | (some e, _) => Except.error e
       | (none, out1) => Except.ok { out1 with data := out1.data.map (fun rec => rec.map fun kv => (kv.1, decodeSerialized kv.2)) }) := rfl
  rw [h1, log_upgradeProc_at_class out u h]

/-- Re-encoding then decoding a record is the identity
(`pickle.loads(pickle.dumps(v)) == v`). -/
theorem decode_encode_record (rec : List (String × Payload)) :
    ((rec.map fun kv => (kv.1, Payload.pickleStr kv.2)).map
      fun kv => (kv.1, decodeSerialized kv.2)) = rec := by
  rw [List.map_map]
  have : ((fun kv => (kv.1, decodeSerialized kv.2)) ∘
      fun kv : String × Payload => (kv.1, Payload.pickleStr kv.2)) =
      fun kv => kv := by
    funext kv
    simp [Function.comp, decodeSerialized, pickleLoads]
  rw [this, List.map_id']

/-- C3 (amended).  Saving an `ExperimentLog` with non-empty `data` at the
current class version and loading the written file reproduces its `data`,
`uuid` and `metadata` exactly.  (A log with empty `data` writes no file at
all; see the counterexample.) -/
theorem c3_save_load (log : ExperimentLog) (u : String)
    (hd : log.data ≠ []) (hv : log.version = logClassVersion) :
    ∃ out, ExperimentLog.loadFile u log.save = .ok out ∧
      out.data = log.data ∧ out.uuid = log.uuid ∧ out.metadata = log.metadata := by
  have hne : log.data.isEmpty = false := by
    cases hl2 : log.data with
    | nil => exact absurd hl2 hd
    | cons a l2 => rfl
  have hsave : log.save = some (.pickledLog
      { log with data := log.data.map fun rec =>
          rec.map fun kv => (kv.1, Payload.pickleStr kv.2) }) := by
    unfold ExperimentLog.save
    rw [hne]
    rfl
  refine ⟨{ log with data :=
      (log.data.map (fun rec =>
        rec.map fun kv => (kv.1, Payload.pickleStr kv.2))).map (fun rec =>
        rec.map fun kv => (kv.1, decodeSerialized kv.2)) }, ?_, ?_, rfl, rfl⟩
  · rw [hsave]
    exact loadFile_at_class u _ hv
  · show ((log.data.map fun rec =>
        rec.map fun kv => (kv.1, Payload.pickleStr kv.2)).map fun rec =>
        rec.map fun kv => (kv.1, decodeSerialized kv.2)) = log.data
    rw [List.map_map]
    calc (log.data.map _) = log.data.map id := List.map_congr_left
            fun rec _ => decode_encode_record rec
      _ = log.data := List.map_id _

/-- A log whose `data` is empty: `save` writes nothing at all. -/
def emptyDataLog : ExperimentLog :=
  ⟨none, [], logClassVersion, "uuid-empty", none, []⟩

/-- C3 counterexample: for an `ExperimentLog` with empty `data`, `save()`
never writes the `data` file (the body is guarded by `if self.data:`), so
there is nothing for `load` to reproduce — refuting the claim for *every*
`ExperimentLog`. -/
theorem c3_counterexample :
    ExperimentLog.save emptyDataLog = none ∧
      ExperimentLog.loadFile "u" (ExperimentLog.save emptyDataLog) =
        .error PyErr.ioError :=
  ⟨rfl, rfl⟩

/-- A concrete log for the C3 witness. -/
def sampleDataLog : ExperimentLog :=
  ⟨none, [[("core", .dict [("step", .n 0)]), ("plugin_a", .s "v")]],
    logClassVersion, "uuid-data", some 3, [("meta", .s "m")]⟩

/-- C3 witness. -/
theorem c3_witness :
    ∃ out, ExperimentLog.loadFile "u" sampleDataLog.save = .ok out ∧
      out.data = sampleDataLog.data ∧ out.uuid = sampleDataLog.uuid ∧
      out.metadata = sampleDataLog.metadata :=
  c3_save_load sampleDataLog "u" (by simp [sampleDataLog]) rfl

/-! ## C8: per-record decode failure is isolated but not marked -/

/-- Pickled form of one record, as written by `save`. -/
def encRec (rec : List (String × Payload)) : List (String × Payload) :=
  rec.map fun kv => (kv.1, Payload.pickleStr kv.2)

/-- C8 (amended).  Loading a document in which exactly one plugin entry is
an undecodable byte string succeeds (no exception escapes), every other
entry is decoded back to its value, and the failing entry is *left as its
raw serialized form* — it is not replaced by a missing marker (`None`).
The last conjunct records that `Protocol.load`'s step-data decode loop
treats an undecodable value the same way. -/
theorem c8_decode_isolation (u c k : String) (dir : Option String)
    (uid : String) (eid : Option Nat) (md : List (String × Payload))
    (D1 D2 : List (List (String × Payload))) (e1 e2 : List (String × Payload)) :
    ExperimentLog.loadFile u (some (.pickledLog
        ⟨dir, D1.map encRec ++ (encRec e1 ++ (k, .corrupt c) :: encRec e2) ::
          D2.map encRec, logClassVersion, uid, eid, md⟩)) =
      .ok ⟨dir, D1 ++ (e1 ++ (k, .corrupt c) :: e2) :: D2,
        logClassVersion, uid, eid, md⟩ ∧
      Payload.corrupt c ≠ Payload.pynone ∧
      decodeSerializedStep (.corrupt c) = .corrupt c := by
  refine ⟨?_, fun h => Payload.noConfusion h, rfl⟩
  have hrec : ∀ rec : List (String × Payload),
      (encRec rec).map (fun kv => (kv.1, decodeSerialized kv.2)) = rec :=
    fun rec => decode_encode_record rec
  have hD : ∀ D : List (List (String × Payload)),
      (D.map encRec).map (fun rec =>
        rec.map fun kv => (kv.1, decodeSerialized kv.2)) = D := by
    intro D
    rw [List.map_map]
    calc (D.map _) = D.map id := List.map_congr_left fun rec _ => hrec rec
      _ = D := List.map_id _
  have hmid : (encRec e1 ++ (k, Payload.corrupt c) :: encRec e2).map
      (fun kv => (kv.1, decodeSerialized kv.2)) =
      e1 ++ (k, Payload.corrupt c) :: e2 := by
    rw [List.map_append, List.map_cons, hrec e1, hrec e2]
    rfl
  have hdata : ((D1.map encRec ++ (encRec e1 ++ (k, Payload.corrupt c) ::
      encRec e2) :: D2.map encRec).map (fun rec =>
        rec.map fun kv => (kv.1, decodeSerialized kv.2))) =
      D1 ++ (e1 ++ (k, Payload.corrupt c) :: e2) :: D2 := by
    rw [List.map_append, List.map_cons, hD D1, hD D2, hmid]
  rw [loadFile_at_class u _ rfl]
  exact congrArg (fun dt => (Except.ok
    ⟨dir, dt, logClassVersion, uid, eid, md⟩ : Except PyErr ExperimentLog)) hdata

/-- A file holding one decodable and one undecodable plugin entry. -/
def corruptFile : LogFile :=
  .pickledLog ⟨none, [[("plugin_a", .pickleStr (.dict [("k", .n 1)])),
    ("plugin_b", .corrupt "xyz")]], logClassVersion, "uuid-c", none, []⟩

/-- C8 counterexample: the undecodable `plugin_b` entry of `corruptFile` is
left as the raw byte string `corrupt "xyz"` after loading — it is *not*
dropped or replaced by the missing marker (`None`), refuting that part of
the claim (the load itself still succeeds and `plugin_a` is decoded). -/
theorem c8_counterexample :
    ExperimentLog.loadFile "u" (some corruptFile) =
        .ok ⟨none, [[("plugin_a", .dict [("k", .n 1)]),
          ("plugin_b", .corrupt "xyz")]], logClassVersion, "uuid-c", none, []⟩ ∧
      Payload.corrupt "xyz" ≠ Payload.pynone :=
  ⟨rfl, fun h => Payload.noConfusion h⟩

/-! ## C7: the step-sequence invariant -/

theorem length_pyInsertIdx (l : List Step) (i : Int) (a : Step) :
    (pyInsertIdx l i a).length = l.length + 1 := by
  unfold pyInsertIdx
  split
  · rw [List.length_insertIdx]
    exact le_trans (Nat.min_le_right _ _) (le_refl _)
  · rw [List.length_insertIdx]
    omega

theorem length_insert_step (p : Protocol) (sn : Option Int) (v : Option Step)
    (fresh : Nat) :
    (p.insert_step sn v fresh).steps.length = p.steps.length + 1 :=
  length_pyInsertIdx _ _ _

theorem length_foldl_insert (vs : List Step) (n : Int) :
    ∀ p : Protocol,
      (vs.foldl (fun q v => q.insert_step (some n) (some v) 0) p).steps.length =
        p.steps.length + vs.length := by
  induction vs with
  | nil => intro p; rfl
  | cons v rest ih =>
    intro p
    rw [List.foldl_cons, ih, length_insert_step]
    simp only [List.length_cons]
    omega

theorem insert_steps_ok_length (p : Protocol) (n : Int) (cnt : Option Nat)
    (vs : Option (List Step)) (fresh : Nat) (q : Protocol)
    (h : p.insert_steps n cnt vs fresh = .ok q) :
    p.steps.length ≤ q.steps.length := by
  unfold Protocol.insert_steps at h
  match vs, cnt with
  | none, none => exact Except.noConfusion h
  | none, some c =>
    have h2 : Except.ok (ε := PyErr)
        ((List.replicate c (⟨fresh, []⟩ : Step)).reverse.foldl
          (fun q v => q.insert_step (some n) (some v) 0) p) = Except.ok q := h
    cases h2
    rw [length_foldl_insert]
    omega
  | some vals, _ =>
    have h2 : Except.ok (ε := PyErr)
        (vals.reverse.foldl (fun q v => q.insert_step (some n) (some v) 0) p) =
          Except.ok q := h
    cases h2
    rw [length_foldl_insert]
    omega

theorem delete_step_some (p : Protocol) (i fresh : Nat) (st : Step)
    (hg : p.steps.get? i = some st) :
    p.delete_step i fresh =
      (if (p.steps.eraseIdx i).length = 0 then
        .ok ((({ p with steps := p.steps.eraseIdx i }
          : Protocol).insert_step (some 0) (some ⟨fresh, []⟩) fresh).goto_step 0)
      else if p.current_step_number = ((p.steps.eraseIdx i).length : Int) then
        .ok (({ p with steps := p.steps.eraseIdx i }
          : Protocol).goto_step ((i : Int) - 1))
      else
        .ok (({ p with steps := p.steps.eraseIdx i }
          : Protocol).goto_step p.current_step_number)) := by
  unfold Protocol.delete_step
  rw [hg]

theorem delete_step_ok_length (p : Protocol) (i fresh : Nat) (q : Protocol)
    (h : p.delete_step i fresh = .ok q) : 1 ≤ q.steps.length := by
  cases hg : p.steps.get? i with
  | none =>
    unfold Protocol.delete_step at h
    rw [hg] at h
    exact Except.noConfusion h
  | some st =>
    rw [delete_step_some p i fresh st hg] at h
    by_cases h0 : (p.steps.eraseIdx i).length = 0
    · rw [if_pos h0] at h
      cases h
      show 1 ≤ (({ p with steps := p.steps.eraseIdx i }
        : Protocol).insert_step (some 0) (some ⟨fresh, []⟩) fresh).steps.length
      rw [length_insert_step]
      omega
    · rw [if_neg h0] at h
      by_cases h1 : p.current_step_number = ((p.steps.eraseIdx i).length : Int)
      · rw [if_pos h1] at h
        cases h
        show 1 ≤ (p.steps.eraseIdx i).length
        omega
      · rw [if_neg h1] at h
        cases h
        show 1 ≤ (p.steps.eraseIdx i).length
        omega

theorem delete_steps_aux_length (ids : List Nat) :
    ∀ (p : Protocol) (c : Nat) (q : Protocol), 1 ≤ p.steps.length →
      Protocol.delete_steps_aux p ids c = .ok q → 1 ≤ q.steps.length := by
  induction ids with
  | nil =>
    intro p c q hp h
    have h2 : Except.ok (ε := PyErr) p = Except.ok q := h
    cases h2
    exact hp
  | cons i rest ih =>
    intro p c q hp h
    unfold Protocol.delete_steps_aux at h
    cases hd : p.delete_step i c with
    | error e => rw [hd] at h; exact Except.noConfusion h
    | ok q' =>
      rw [hd] at h
      exact ih q' (c + 1) q (delete_step_ok_length p i c q' hd) h

theorem mapME_length {α β : Type} (f : α → Except PyErr β) :
    ∀ (l : List α) (l' : List β), mapME f l = .ok l' → l'.length = l.length := by
  intro l
  induction l with
  | nil =>
    intro l' h
    have h2 : Except.ok (ε := PyErr) ([] : List β) = Except.ok l' := h
    cases h2
    rfl
  | cons a rest ih =>
    intro l' h
    unfold mapME at h
    cases hfa : f a with
    | error e => rw [hfa] at h; exact Except.noConfusion h
    | ok b =>
      rw [hfa] at h
      cases hml : mapME f rest with
      | error e => rw [hml] at h; exact Except.noConfusion h
      | ok l2 =>
        rw [hml] at h
        have h2 : Except.ok (ε := PyErr) (b :: l2) = Except.ok l' := h
        cases h2
        simp [ih l2 hml]

theorem from_dict_ok_steps_length (d : ProtocolDict) (q : Protocol)
    (h : protocol_from_dict d = .ok q) : q.steps.length = d.steps.length := by
  unfold protocol_from_dict at h
  split at h
  · exact Except.noConfusion h
  · split at h
    · exact Except.noConfusion h
    · cases hm : mapME stepFromDict d.steps with
      | error e => rw [hm] at h; exact Except.noConfusion h
      | ok steps =>
        rw [hm] at h
        have h2 : Except.ok (ε := PyErr)
            { Protocol.init d.name 0 with steps := steps } = Except.ok q := h
        cases h2
        exact mapME_length stepFromDict d.steps steps hm

/-- C7 (amended).  Every `Protocol` reached through construction,
`insert_step`, `insert_steps`, `delete_step`, `delete_steps` or `next_step`
keeps at least one step, and `protocol_from_dict` keeps at least one step
whenever the input dictionary has a non-empty step list (a dictionary with
`steps: []` passes schema validation and yields a 0-step protocol — see the
counterexample, which is what forces the amendment).  In particular,
`delete_step` on a single-step `Protocol` leaves exactly one step, a fresh
default `Step`, with the cursor at index 0. -/
theorem c7_invariant (nm : Option String) (f0 : Nat) (p ps : Protocol)
    (sn : Option Int) (v : Option Step) (f1 : Nat) (n : Int) (cnt : Option Nat)
    (vs : Option (List Step)) (i f2 : Nat) (ids : List Nat) (fb : Nat)
    (q1 q2 q3 q4 : Protocol) (s : Step) (d : ProtocolDict) (q5 : Protocol) :
    (Protocol.init nm f0).steps.length = 1 ∧
    (p.insert_step sn v f1).steps.length = p.steps.length + 1 ∧
    (p.insert_steps n cnt vs f1 = .ok q1 → 1 ≤ p.steps.length →
      1 ≤ q1.steps.length) ∧
    (p.delete_step i f2 = .ok q2 → 1 ≤ q2.steps.length) ∧
    (p.delete_steps ids fb = .ok q3 → 1 ≤ p.steps.length →
      1 ≤ q3.steps.length) ∧
    (p.next_step f2 = .ok q4 → 1 ≤ p.steps.length → 1 ≤ q4.steps.length) ∧
    (protocol_from_dict d = .ok q5 → d.steps ≠ [] → 1 ≤ q5.steps.length) ∧
    (ps.steps = [s] → ps.delete_step 0 f2 =
      .ok { ps with steps := [⟨f2, []⟩], current_step_number := 0 }) := by
  refine ⟨rfl, length_insert_step p sn v f1, ?_, ?_, ?_, ?_, ?_, ?_⟩
  · intro h hp
    exact le_trans hp (insert_steps_ok_length p n cnt vs f1 q1 h)
  · exact delete_step_ok_length p i f2 q2
  · intro h hp
    exact delete_steps_aux_length _ p fb q3 hp h
  · intro h hp
    unfold Protocol.next_step at h
    split at h
    · cases hg : p.steps.get? p.current_step_number.toNat with
      | none => rw [hg] at h; exact Except.noConfusion h
      | some cur =>
        rw [hg] at h
        cases h
        show 1 ≤ (p.insert_step (some p.current_step_number)
          (some (cur.copy f2)) 0).steps.length
        rw [length_insert_step]
        omega
    · cases h
      exact hp
  · intro h hne
    rw [from_dict_ok_steps_length d q5 h]
    cases hs : d.steps with
    | nil => exact absurd hs hne
    | cons a rest => simp
  · intro hs
    rcases ps with ⟨nm', ver', steps', pd', nr', csa', csn', cr'⟩
    simp only at hs
    subst hs
    rfl

/-- A dictionary with an empty step list: valid under the schema. -/
def emptyStepsDict : ProtocolDict := ⟨some "x", protocolClassVersion, [], []⟩

/-- C7 counterexample: `protocol_from_dict` accepts a dictionary whose
`steps` list is empty (the schema only requires `name` and `version`) and
reconstructs a `Protocol` with zero steps, so a step-less `Protocol` *is*
reachable through the public API — refuting the universal length ≥ 1
invariant for `from_dict`. -/
theorem c7_counterexample :
    protocol_from_dict emptyStepsDict =
        .ok { Protocol.init (some "x") 0 with steps := [] } ∧
      ({ Protocol.init (some "x") 0 with steps := [] } : Protocol).steps.length
        = 0 :=
  ⟨rfl, rfl⟩

/-- Concrete protocols for the C7 witness. -/
def twoStepProtocol : Protocol :=
  ⟨some "w", protocolClassVersion, [⟨0, []⟩, ⟨1, []⟩], [], 1, 0, 0, 0⟩

def oneStepProtocol : Protocol :=
  ⟨some "w1", protocolClassVersion, [⟨4, [("a", .s "x")]⟩], [], 1, 0, 0, 0⟩

def c7InsertResult : Protocol :=
  ⟨some "w", protocolClassVersion, [⟨3, []⟩, ⟨0, []⟩, ⟨1, []⟩], [], 1, 0, 0, 0⟩

def c7DeleteResult : Protocol :=
  ⟨some "w", protocolClassVersion, [⟨1, []⟩], [], 1, 0, 0, 0⟩

def c7DeleteStepsResult : Protocol :=
  ⟨some "w", protocolClassVersion, [⟨1, []⟩], [], 1, 0, 0, 0⟩

def c7NextResult : Protocol :=
  ⟨some "w", protocolClassVersion, [⟨0, []⟩, ⟨1, []⟩], [], 1, 0, 1, 0⟩

def c7FromDictInput : ProtocolDict :=
  ⟨some "y", protocolClassVersion, [[("a", .s "x")]], []⟩

def c7FromDictResult : Protocol :=
  { Protocol.init (some "y") 0 with steps := [⟨0, [("a", .s "x")]⟩] }

/-- C7 witness. -/
theorem c7_witness :
    (Protocol.init (some "w0") 2).steps.length = 1 ∧
    (twoStepProtocol.insert_step (some 0) none 3).steps.length =
      twoStepProtocol.steps.length + 1 ∧
    1 ≤ c7InsertResult.steps.length ∧
    1 ≤ c7DeleteResult.steps.length ∧
    1 ≤ c7DeleteStepsResult.steps.length ∧
    1 ≤ c7NextResult.steps.length ∧
    1 ≤ c7FromDictResult.steps.length ∧
    oneStepProtocol.delete_step 0 5 =
      .ok { oneStepProtocol with steps := [⟨5, []⟩], current_step_number := 0 } := by
  have h := c7_invariant (some "w0") 2 twoStepProtocol oneStepProtocol
    (some 0) none 3 0 (some 1) none 0 5 [0] 7 c7InsertResult c7DeleteResult
    c7DeleteStepsResult c7NextResult ⟨4, [("a", .s "x")]⟩ c7FromDictInput
    c7FromDictResult
  exact ⟨h.1, h.2.1,
    h.2.2.1 (by rfl) (by decide),
    h.2.2.2.1 (by rfl),
    h.2.2.2.2.1 (by rfl) (by decide),
    h.2.2.2.2.2.1 (by rfl) (by decide),
    h.2.2.2.2.2.2.1 (by rfl) (by simp [c7FromDictInput]),
    h.2.2.2.2.2.2.2 (by rfl)⟩

/-! ## C6: next_step at the last index -/

/-- C6 (amended).  With the cursor at the last index of an N-step protocol
(`steps = front ++ [cur]`, cursor `front.length`), `next_step` yields an
(N+1)-step protocol with the cursor at index N — but the step at index N is
the *very step object* that was at index N-1 before the call (`cur` itself),
while the deep copy (a distinct object with equal `plugin_data`) is inserted
at index N-1.  With the cursor anywhere else, `next_step` only advances the
cursor and leaves the step sequence untouched. -/
theorem c6_next_step (p : Protocol) (front : List Step) (cur : Step)
    (fresh : Nat) :
    (p.steps = front ++ [cur] → p.current_step_number = (front.length : Int) →
      fresh ∉ p.steps.map Step.sid →
      p.next_step fresh = .ok { p with
          steps := front ++ [cur.copy fresh, cur],
          current_step_number := (front.length : Int) + 1 } ∧
        (cur.copy fresh).plugin_data = cur.plugin_data ∧
        (cur.copy fresh).sid ∉ (front ++ [cur]).map Step.sid) ∧
    (p.current_step_number ≠ (p.steps.length : Int) - 1 →
      p.next_step fresh =
        .ok { p with current_step_number := p.current_step_number + 1 }) := by
  constructor
  · intro hs hc hf
    rcases p with ⟨nm, ver, steps, pd, nr, csa, csn, cr⟩
    simp only at hs hc hf
    subst hs
    subst hc
    refine ⟨?_, rfl, ?_⟩
    · have hcond : (front.length : Int) =
          (((front ++ [cur]).length : Nat) : Int) - 1 := by
        simp [List.length_append]
      have hg : (front ++ [cur]).get? ((front.length : Int)).toNat = some cur := by
        rw [Int.toNat_natCast]
        exact get?_append_middle front cur []
      have hins : pyInsertIdx (front ++ [cur]) (front.length : Int)
          (cur.copy fresh) = front ++ [cur.copy fresh, cur] := by
        unfold pyInsertIdx
        rw [if_pos (Int.natCast_nonneg _), Int.toNat_natCast]
        have hmin : min front.length (front ++ [cur]).length = front.length := by
          simp [List.length_append]
        rw [hmin]
        exact insertIdx_append_middle front (cur.copy fresh) [cur]
      unfold Protocol.next_step
      rw [if_pos hcond, hg]
      unfold Protocol.insert_step Protocol.goto_step
      simp only [Option.getD_some]
      rw [hins]
    · show fresh ∉ (front ++ [cur]).map Step.sid
      exact hf
  · intro hne
    unfold Protocol.next_step
    rw [if_neg hne]
    rfl

/-- A one-step protocol (object identity 0 on its single step). -/
def c6Protocol : Protocol :=
  ⟨some "p", protocolClassVersion, [⟨0, []⟩], [], 1, 0, 0, 0⟩

/-- C6 counterexample: at the one-step protocol `c6Protocol` (cursor at the
last index 0) with fresh object identity 1, `next_step` inserts the deep
copy *before* the original: the resulting step at the new cursor index 1 is
the very object (`sid = 0`) that was at index 0 before the call, and the
fresh copy (`sid = 1`) sits at index 0.  This refutes the claim that the
step at index N is "equal in content but not the same object" as the step
formerly at index N-1: it is the same object. -/
theorem c6_counterexample :
    Protocol.next_step c6Protocol 1 = .ok { c6Protocol with
        steps := [⟨1, []⟩, ⟨0, []⟩], current_step_number := 1 } ∧
      ¬ (∀ q : Protocol, Protocol.next_step c6Protocol 1 = .ok q →
          ∀ st : Step, q.steps.get? 1 = some st →
            st.sid ≠ (⟨0, []⟩ : Step).sid) := by
  refine ⟨rfl, fun h => ?_⟩
  exact h _ rfl ⟨0, []⟩ rfl rfl

/-- A two-step protocol with the cursor on the last step. -/
def c6LastProtocol : Protocol :=
  ⟨some "q", protocolClassVersion, [⟨0, [("a", .s "x")]⟩, ⟨1, [("b", .s "y")]⟩],
    [], 1, 0, 1, 0⟩

/-- C6 witness. -/
theorem c6_witness :
    (c6LastProtocol.next_step 2 = .ok { c6LastProtocol with
        steps := [⟨0, [("a", .s "x")]⟩, (⟨1, [("b", .s "y")]⟩ : Step).copy 2,
          ⟨1, [("b", .s "y")]⟩],
        current_step_number := (([⟨0, [("a", .s "x")]⟩] : List Step).length : Int) + 1 } ∧
      ((⟨1, [("b", .s "y")]⟩ : Step).copy 2).plugin_data =
        (⟨1, [("b", .s "y")]⟩ : Step).plugin_data ∧
      ((⟨1, [("b", .s "y")]⟩ : Step).copy 2).sid ∉
        ([⟨0, [("a", .s "x")]⟩] ++ [⟨1, [("b", .s "y")]⟩] : List Step).map Step.sid) ∧
    (c6Protocol.current_step_number ≠ ((c6Protocol.steps.length : Nat) : Int) - 1 →
      c6Protocol.next_step 9 = .ok { c6Protocol with
        current_step_number := c6Protocol.current_step_number + 1 }) := by
  constructor
  · exact (c6_next_step c6LastProtocol [⟨0, [("a", .s "x")]⟩]
      ⟨1, [("b", .s "y")]⟩ 2).1 rfl rfl (by decide)
  · exact (c6_next_step c6Protocol [] ⟨9, []⟩ 9).2

/-! ## C2: dictionary round trip -/

/-- Payloads on which the `__class__` dispatch of `protocol_from_dict` is
well-behaved: a contract object whose `to_dict` fields do not themselves
contain a `__class__` entry, a plain dictionary without a `__class__` key,
or a plain string not containing the literal tag.  A bare number or `None`
payload makes the Python membership test `'__class__' in payload` raise
`TypeError`, and a stray tag diverts the payload through the dispatch. -/
def tamePayload : Payload → Bool
  | .obj _ fields => decide ("__class__" ∉ fields.map Prod.fst)
  | .dict kvs => decide ("__class__" ∉ kvs.map Prod.fst)
  | .s str => !(containsClassTag str)
  | _ => false

theorem insortStr_perm (k : String) (l : List String) :
    (insortStr k l).Perm (k :: l) := by
  induction l with
  | nil => exact List.Perm.refl _
  | cons a rest ih =>
    unfold insortStr
    split
    · exact List.Perm.refl _
    · exact List.Perm.trans (List.Perm.cons a ih) (List.Perm.swap k a rest)

theorem sortStrs_perm (l : List String) : (sortStrs l).Perm l := by
  induction l with
  | nil => exact List.Perm.refl _
  | cons a rest ih =>
    show (insortStr a (sortStrs rest)).Perm (a :: rest)
    exact List.Perm.trans (insortStr_perm a (sortStrs rest)) (List.Perm.cons a ih)

theorem mem_sortedPlugins (st : Step) (x : String) :
    x ∈ st.sortedPlugins ↔ x ∈ st.plugin_data.map Prod.fst := by
  rw [Step.sortedPlugins, (sortStrs_perm _).mem_iff, List.mem_dedup]

theorem sortedPlugins_nodup (st : Step) : st.sortedPlugins.Nodup :=
  ((sortStrs_perm _).nodup_iff).mpr (List.nodup_dedup _)

theorem keyed_filterMap_cons_none (pd : List (String × Payload))
    (f : Payload → Payload) (k : String) (K : List String)
    (hlk : pd.lookup k = none) :
    ((k :: K).filterMap fun k' => (pd.lookup k').map fun q => (k', f q)) =
      K.filterMap fun k' => (pd.lookup k').map fun q => (k', f q) := by
  rw [List.filterMap_cons, hlk]
  rfl

theorem keyed_filterMap_cons_some (pd : List (String × Payload))
    (f : Payload → Payload) (k : String) (K : List String) (q : Payload)
    (hlk : pd.lookup k = some q) :
    ((k :: K).filterMap fun k' => (pd.lookup k').map fun q' => (k', f q')) =
      (k, f q) :: (K.filterMap fun k' => (pd.lookup k').map fun q' => (k', f q')) := by
  rw [List.filterMap_cons, hlk]
  rfl

theorem keys_keyed_filterMap_subset (pd : List (String × Payload))
    (f : Payload → Payload) (x : String) :
    ∀ K : List String,
      x ∈ (K.filterMap fun k => (pd.lookup k).map fun q => (k, f q)).map
        Prod.fst → x ∈ K := by
  intro K
  induction K with
  | nil => simp
  | cons k rest ih =>
    cases hlk : pd.lookup k with
    | none =>
      rw [keyed_filterMap_cons_none pd f k rest hlk]
      intro h
      exact List.mem_cons_of_mem _ (ih h)
    | some q =>
      rw [keyed_filterMap_cons_some pd f k rest q hlk]
      intro h
      rw [List.map_cons] at h
      rcases List.mem_cons.mp h with h1 | h2
      · rw [h1]; exact List.mem_cons_self _ _
      · exact List.mem_cons_of_mem _ (ih h2)

theorem lookup_keyed_filterMap (pd : List (String × Payload))
    (f : Payload → Payload) (x : String) :
    ∀ K : List String, K.Nodup → (x ∈ K ↔ x ∈ pd.map Prod.fst) →
      (K.filterMap fun k => (pd.lookup k).map fun q => (k, f q)).lookup x =
        (pd.lookup x).map f := by
  intro K
  induction K with
  | nil =>
    intro _ hmem
    have hx : x ∉ pd.map Prod.fst := fun h2 => by simpa using hmem.mpr h2
    rw [lookup_eq_none_of_not_mem_keys pd x hx]
    rfl
  | cons k rest ih =>
    intro hnd hmem
    rcases List.nodup_cons.mp hnd with ⟨hk, hnd'⟩
    cases hlk : pd.lookup k with
    | none =>
      rw [keyed_filterMap_cons_none pd f k rest hlk]
      by_cases hx : x = k
      · subst hx
        rw [hlk]
        apply lookup_eq_none_of_not_mem_keys
        intro h2
        exact hk (keys_keyed_filterMap_subset pd f x rest h2)
      · refine ih hnd' ⟨fun h2 => hmem.mp (List.mem_cons_of_mem _ h2), ?_⟩
        intro h2
        rcases List.mem_cons.mp (hmem.mpr h2) with h3 | h3
        · exact absurd h3 hx
        · exact h3
    | some q =>
      rw [keyed_filterMap_cons_some pd f k rest q hlk, lookup_cons]
      by_cases hx : x = k
      · subst hx
        rw [if_pos rfl, hlk]
        rfl
      · rw [if_neg hx]
        refine ih hnd' ⟨fun h2 => hmem.mp (List.mem_cons_of_mem _ h2), ?_⟩
        intro h2
        rcases List.mem_cons.mp (hmem.mpr h2) with h3 | h3
        · exact absurd h3 hx
        · exact h3

/-- For a tame payload, the `__class__` dispatch of `protocol_from_dict`
inverts the `to_dict` conversion of `protocol_to_dict`. -/
theorem decodePayload_toDictForm (q : Payload) (ht : tamePayload q = true) :
    decodePayload (payloadToDictForm q) = .ok q := by
  cases q with
  | obj cls fields =>
    have hf : "__class__" ∉ fields.map Prod.fst := by
      simpa [tamePayload] using ht
    have hany : ((("__class__", Payload.s cls) :: fields).any
        fun kv => kv.1 = "__class__") = true := by simp
    have hlu : (("__class__", Payload.s cls) :: fields).lookup "__class__" =
        some (.s cls) := by
      rw [lookup_cons, if_pos rfl]
    have herase : eraseKey "__class__" (("__class__", Payload.s cls) :: fields)
        = fields := by
      unfold eraseKey
      rw [List.filter_cons]
      have hhead : (decide ¬("__class__", Payload.s cls).1 = "__class__") = false := by
        simp
      rw [hhead]
      simp only [Bool.false_eq_true, if_false]
      refine List.filter_eq_self.mpr ?_
      intro kv hkv
      simp only [decide_eq_true_eq]
      intro hkv2
      exact hf (by rw [← hkv2]; exact List.mem_map_of_mem Prod.fst hkv)
    show decodePayload (.dict (("__class__", Payload.s cls) :: fields)) = _
    unfold decodePayload
    rw [show hasClassCheck (.dict (("__class__", Payload.s cls) :: fields)) =
      .ok true from by rw [show hasClassCheck
        (.dict (("__class__", Payload.s cls) :: fields)) =
        .ok ((("__class__", Payload.s cls) :: fields).any
          fun kv => kv.1 = "__class__") from rfl, hany]]
    show (match (("__class__", Payload.s cls) :: fields).lookup "__class__" with
      | some (.s c2) => Except.ok (Payload.obj c2
          (eraseKey "__class__" (("__class__", Payload.s cls) :: fields)))
      | some _ => Except.error PyErr.attributeError
      | none => Except.error PyErr.keyError) = .ok (.obj cls fields)
    rw [hlu, herase]
  | dict kvs =>
    have hf : "__class__" ∉ kvs.map Prod.fst := by
      simpa [tamePayload] using ht
    have hany : (kvs.any fun kv => kv.1 = "__class__") = false := by
      rw [List.any_eq_false]
      intro kv hkv
      simp only [decide_eq_true_eq]
      intro hkv2
      exact hf (by rw [← hkv2]; exact List.mem_map_of_mem Prod.fst hkv)
    show decodePayload (.dict kvs) = .ok (.dict kvs)
    unfold decodePayload
    rw [show hasClassCheck (.dict kvs) =
      .ok (kvs.any fun kv => kv.1 = "__class__") from rfl, hany]
    rfl
  | s str =>
    have hc : containsClassTag str = false := by
      simpa [tamePayload] using ht
    show decodePayload (.s str) = .ok (.s str)
    unfold decodePayload
    rw [show hasClassCheck (.s str) = .ok (containsClassTag str) from rfl, hc]
    rfl
  | n z => simp [tamePayload] at ht
  | pickleStr q2 => simp [tamePayload] at ht
  | yamlStr q2 => simp [tamePayload] at ht
  | corrupt s2 => simp [tamePayload] at ht
  | pynone => simp [tamePayload] at ht

/-- `mapME` over a list on which `f` always succeeds. -/
theorem mapME_congr_ok {α β : Type} (f : α → Except PyErr β) (g : α → β) :
    ∀ l : List α, (∀ a ∈ l, f a = .ok (g a)) → mapME f l = .ok (l.map g) := by
  intro l
  induction l with
  | nil => intro _; rfl
  | cons a rest ih =>
    intro h
    unfold mapME
    rw [h a (List.mem_cons_self a rest),
      ih fun b hb => h b (List.mem_cons_of_mem a hb)]
    rfl

/-- `mapME` over a mapped list. -/
theorem mapME_map {α β γ : Type} (f : β → Except PyErr γ) (g : α → β) :
    ∀ l : List α, mapME f (l.map g) = mapME (fun a => f (g a)) l := by
  intro l
  induction l with
  | nil => rfl
  | cons a rest ih =>
    rw [List.map_cons]
    unfold mapME
    rw [ih]

/-- The decode pass of `stepFromDict` applied to the list that `stepToDict`
builds from the sorted plugin names. -/
theorem mapME_decode_keyed (pd : List (String × Payload))
    (ht : ∀ kv ∈ pd, tamePayload kv.2 = true) :
    ∀ K : List String,
      mapME (fun kv => do
          let q ← decodePayload kv.2
          pure (kv.1, q))
        (K.filterMap fun k => (pd.lookup k).map fun q =>
          (k, payloadToDictForm q)) =
      .ok (K.filterMap fun k => (pd.lookup k).map fun q => (k, q)) := by
  intro K
  induction K with
  | nil => rfl
  | cons k rest ih =>
    cases hlk : pd.lookup k with
    | none =>
      rw [keyed_filterMap_cons_none pd payloadToDictForm k rest hlk,
        keyed_filterMap_cons_none pd (fun q => q) k rest hlk]
      exact ih
    | some q0 =>
      have htq : tamePayload q0 = true :=
        ht (k, q0) (mem_of_lookup_eq_some pd k q0 hlk)
      rw [keyed_filterMap_cons_some pd payloadToDictForm k rest q0 hlk,
        keyed_filterMap_cons_some pd (fun q => q) k rest q0 hlk]
      unfold mapME
      rw [show (do
          let q ← decodePayload (k, payloadToDictForm q0).2
          pure ((k, payloadToDictForm q0).1, q)
          : Except PyErr (String × Payload)) =
        .ok (k, q0) from by
          show (do
            let q ← decodePayload (payloadToDictForm q0)
            pure (k, q) : Except PyErr (String × Payload)) = .ok (k, q0)
          rw [decodePayload_toDictForm q0 htq]
          rfl]
      rw [ih]
      rfl

/-- What one step becomes after the full dictionary round trip. -/
def roundStep (st : Step) : Step :=
  ⟨0, st.sortedPlugins.filterMap fun k =>
    (st.plugin_data.lookup k).map fun q => (k, q)⟩

theorem stepFromDict_stepToDict (st : Step)
    (ht : ∀ kv ∈ st.plugin_data, tamePayload kv.2 = true) :
    stepFromDict (stepToDict st) = .ok (roundStep st) := by
  unfold stepFromDict stepToDict roundStep
  rw [mapME_decode_keyed st.plugin_data ht st.sortedPlugins]
  rfl

theorem lookup_roundStep (st : Step) (x : String) :
    (roundStep st).plugin_data.lookup x = st.plugin_data.lookup x := by
  show (st.sortedPlugins.filterMap fun k =>
      (st.plugin_data.lookup k).map fun q => (k, q)).lookup x =
    st.plugin_data.lookup x
  rw [show (st.sortedPlugins.filterMap fun k =>
      (st.plugin_data.lookup k).map fun q => (k, q)) =
    st.sortedPlugins.filterMap fun k =>
      (st.plugin_data.lookup k).map fun q => (k, (fun q' => q') q) from rfl]
  rw [lookup_keyed_filterMap st.plugin_data (fun q' => q') x st.sortedPlugins
    (sortedPlugins_nodup st) (mem_sortedPlugins st x)]
  cases st.plugin_data.lookup x <;> rfl

/-- C2 (amended).  For a `Protocol` whose name is an actual string, whose
version is the class version, whose per-step plugin names are unique, and
whose step payloads are tame (see `tamePayload`; bare numeric or `None`
payloads make `protocol_from_dict` raise `TypeError`, and a fresh protocol's
`name=None` already fails schema validation — see the counterexample),
`protocol_from_dict (protocol_to_dict p)` succeeds and reproduces the name,
the version, the step count, every step's plugin-name set, and every
payload (contract objects included) exactly, looked up by plugin name. -/
theorem c2_round_trip (p : Protocol) (nm : String)
    (hn : p.name = some nm) (hv : p.version = protocolClassVersion)
    (hnd : ∀ st ∈ p.steps, (st.plugin_data.map Prod.fst).Nodup)
    (ht : ∀ st ∈ p.steps, ∀ kv ∈ st.plugin_data, tamePayload kv.2 = true) :
    ∃ p', protocol_from_dict (protocol_to_dict p) = .ok p' ∧
      p'.name = p.name ∧ p'.version = p.version ∧
      p'.steps.length = p.steps.length ∧
      (∀ i st st', p.steps.get? i = some st → p'.steps.get? i = some st' →
        (∀ x, x ∈ st'.plugin_data.map Prod.fst ↔
          x ∈ st.plugin_data.map Prod.fst) ∧
        (∀ x, st'.plugin_data.lookup x = st.plugin_data.lookup x)) := by
  refine ⟨{ Protocol.init p.name 0 with steps := p.steps.map roundStep },
    ?_, rfl, by rw [hv]; rfl, by simp, ?_⟩
  · unfold protocol_from_dict
    have hval : validateProtocolDict (protocol_to_dict p) = true := by
      unfold validateProtocolDict protocol_to_dict
      rw [hn, hv]
      simp [protocolClassVersion]
    rw [hval]
    have hver : ((Protocol.init (protocol_to_dict p).name 0).version =
        (protocol_to_dict p).version) := by
      show protocolClassVersion = p.version
      exact hv.symm
    simp only [hval, not_true_eq_false, Bool.false_eq_true, if_false,
      hver, not_true_eq_false]
    have hsteps : mapME stepFromDict (protocol_to_dict p).steps =
        .ok (p.steps.map roundStep) := by
      show mapME stepFromDict (p.steps.map stepToDict) = _
      rw [mapME_map stepFromDict stepToDict p.steps]
      exact mapME_congr_ok _ roundStep p.steps
        fun st hst => stepFromDict_stepToDict st (ht st hst)
    rw [hsteps]
    have hv2 : (protocol_to_dict p).version = protocolClassVersion := hv
    rw [hv2]
    rfl
  · intro i st st' hg hg'
    have h2 : (p.steps.map roundStep).get? i = some st' := hg'
    rw [List.get?_map, hg] at h2
    have hst' : st' = roundStep st := by
      cases h2
      rfl
    subst hst'
    have hmem : st ∈ p.steps := List.get?_mem hg
    constructor
    · intro x
      rw [← lookup_isSome_iff_mem_keys, ← lookup_isSome_iff_mem_keys,
        lookup_roundStep st x]
    · intro x
      exact lookup_roundStep st x

/-- A freshly constructed `Protocol()` (Python default `name=None`). -/
def noNameProtocol : Protocol := Protocol.init none 0

/-- C2 counterexample: a default-constructed `Protocol` has `name = None`,
but the JSON schema requires `name` to be a string, so
`protocol_from_dict (protocol_to_dict p)` raises a validation error instead
of returning an equivalent `Protocol` — the round trip does not hold for
*every* `Protocol`.  (Scalar step payloads break it too: the membership
test `'__class__' in payload` raises `TypeError` on a number.) -/
theorem c2_counterexample :
    protocol_from_dict (protocol_to_dict noNameProtocol) =
      .error PyErr.validationError := rfl

/-- A protocol exercising a contract object, a plain dictionary and a plain
string payload. -/
def c2SampleProtocol : Protocol :=
  ⟨some "w2", protocolClassVersion,
    [⟨5, [("plugin_b", .dict [("x", .n 1)]),
          ("plugin_a", .obj "plugins.m.Cls" [("f", .s "v")])]⟩],
    [("g", .s "h")], 2, 0, 0, 0⟩

/-- C2 witness. -/
theorem c2_witness :
    ∃ p', protocol_from_dict (protocol_to_dict c2SampleProtocol) = .ok p' ∧
      p'.name = c2SampleProtocol.name ∧
      p'.version = c2SampleProtocol.version ∧
      p'.steps.length = c2SampleProtocol.steps.length ∧
      (∀ i st st', c2SampleProtocol.steps.get? i = some st →
        p'.steps.get? i = some st' →
        (∀ x, x ∈ st'.plugin_data.map Prod.fst ↔
          x ∈ st.plugin_data.map Prod.fst) ∧
        (∀ x, st'.plugin_data.lookup x = st.plugin_data.lookup x)) :=
  c2_round_trip c2SampleProtocol "w2" rfl rfl (by decide) (by decide)

/-! ## C1: fault-isolating serializer -/

theorem failingStepIdxs_cons (ok : Payload → Bool)
    (sd : List (String × Payload)) (rest : List (List (String × Payload)))
    (n : Nat) :
    failingStepIdxs ok n (sd :: rest) =
      (if stepSerOk ok sd then [] else [n]) ++
        failingStepIdxs ok (n + 1) rest := rfl

theorem failingStepIdxs_append (ok : Payload → Bool)
    (A B : List (List (String × Payload))) :
    ∀ n, failingStepIdxs ok n (A ++ B) =
      failingStepIdxs ok n A ++ failingStepIdxs ok (n + A.length) B := by
  induction A with
  | nil => intro n; simp [failingStepIdxs]
  | cons sd rest ih =>
    intro n
    rw [List.cons_append, failingStepIdxs_cons, failingStepIdxs_cons,
      ih (n + 1), List.append_assoc]
    have hn : n + 1 + rest.length = n + (sd :: rest).length := by
      simp [List.length_cons]
      omega
    rw [hn]

theorem failingStepIdxs_all_ok (ok : Payload → Bool)
    (A : List (List (String × Payload))) (hA : A.all (stepSerOk ok) = true) :
    ∀ n, failingStepIdxs ok n A = [] := by
  induction A with
  | nil => intro n; rfl
  | cons sd rest ih =>
    intro n
    rw [List.all_cons, Bool.and_eq_true] at hA
    unfold failingStepIdxs
    rw [hA.1]
    simp only [if_true, List.nil_append]
    exact ih hA.2 (n + 1)

theorem stepSerExns_all_ok (ok : Payload → Bool) (errMsg : Payload → String)
    (i : Nat) (u : List (String × Payload)) (hu : stepSerOk ok u = true) :
    stepSerExns ok errMsg i u = [] := by
  unfold stepSerExns
  rw [List.filterMap_eq_nil]
  intro kv hkv
  rw [if_pos (List.all_eq_true.mp hu kv hkv)]

theorem stepSerExns_decomp (ok : Payload → Bool) (errMsg : Payload → String)
    (i : Nat) (u w : List (String × Payload)) (pl : String) (v : Payload)
    (hu : stepSerOk ok u = true) (hw : stepSerOk ok w = true)
    (hv : ok v = false) :
    stepSerExns ok errMsg i (u ++ (pl, v) :: w) = [⟨i, pl, v, errMsg v⟩] := by
  unfold stepSerExns
  rw [List.filterMap_append, List.filterMap_cons]
  rw [show u.filterMap (fun kv => if ok kv.2 = true then none
      else some (⟨i, kv.1, kv.2, errMsg kv.2⟩ : SerExn)) = []
      from stepSerExns_all_ok ok errMsg i u hu]
  rw [show w.filterMap (fun kv => if ok kv.2 = true then none
      else some (⟨i, kv.1, kv.2, errMsg kv.2⟩ : SerExn)) = []
      from stepSerExns_all_ok ok errMsg i w hw]
  simp [hv]

theorem eraseKey_decomp (pl : String) (v : Payload)
    (u w : List (String × Payload)) (hpu : pl ∉ u.map Prod.fst)
    (hpw : pl ∉ w.map Prod.fst) :
    eraseKey pl (u ++ (pl, v) :: w) = u ++ w := by
  have hu2 : u.filter (fun kv => ¬ kv.1 = pl) = u := by
    refine List.filter_eq_self.mpr ?_
    intro kv hkv
    simp only [decide_eq_true_eq]
    intro he
    exact hpu (by rw [← he]; exact List.mem_map_of_mem Prod.fst hkv)
  have hw2 : w.filter (fun kv => ¬ kv.1 = pl) = w := by
    refine List.filter_eq_self.mpr ?_
    intro kv hkv
    simp only [decide_eq_true_eq]
    intro he
    exact hpw (by rw [← he]; exact List.mem_map_of_mem Prod.fst hkv)
  unfold eraseKey
  rw [List.filter_append,
    show ((pl, v) :: w).filter (fun kv => ¬ kv.1 = pl) =
      w.filter (fun kv => ¬ kv.1 = pl) from by rw [List.filter_cons]; simp,
    hu2, hw2]

/-- C1.  For a protocol dictionary in which exactly one step's exactly one
plugin payload fails the (compositional, JSON-like) serialization function —
step `A.length`, plugin `pl`, payload `v`; everything else serializes —
`serialize_protocol` raises a `SerializationError` whose exception list
names exactly that (step, plugin) pair and no other; applying the
remove-exceptions repair with that list succeeds, deletes exactly that
record, and the repaired document then serializes. -/
theorem c1_serialize_isolation (ok : Payload → Bool)
    (errMsg : Payload → String) (nm : Option String) (ver : Version)
    (A B : List (List (String × Payload)))
    (u w pd : List (String × Payload)) (pl : String) (v : Payload)
    (hA : A.all (stepSerOk ok) = true) (hB : B.all (stepSerOk ok) = true)
    (hu : stepSerOk ok u = true) (hw : stepSerOk ok w = true)
    (hv : ok v = false)
    (hpu : pl ∉ u.map Prod.fst) (hpw : pl ∉ w.map Prod.fst)
    (hpd : stepSerOk ok pd = true) :
    serialize_protocol ok errMsg ⟨nm, ver, A ++ (u ++ (pl, v) :: w) :: B, pd⟩ =
      .error [⟨A.length, pl, v, errMsg v⟩] ∧
    protocol_dict_remove_exceptions
        ⟨nm, ver, A ++ (u ++ (pl, v) :: w) :: B, pd⟩
        [⟨A.length, pl, v, errMsg v⟩] =
      .ok ⟨nm, ver, A ++ (u ++ w) :: B, pd⟩ ∧
    serialize_protocol ok errMsg ⟨nm, ver, A ++ (u ++ w) :: B, pd⟩ = .ok () := by
  have hsbad : stepSerOk ok (u ++ (pl, v) :: w) = false := by
    unfold stepSerOk
    rw [List.all_append]
    unfold stepSerOk at hu
    rw [hu]
    simp [hv]
  have hsok : stepSerOk ok (u ++ w) = true := by
    unfold stepSerOk
    rw [List.all_append]
    unfold stepSerOk at hu hw
    rw [hu, hw]
    rfl
  have hg : (A ++ (u ++ (pl, v) :: w) :: B).get? A.length =
      some (u ++ (pl, v) :: w) := get?_append_middle A _ B
  refine ⟨?_, ?_, ?_⟩
  · unfold serialize_protocol
    have hbad : protocolDictOk ok
        ⟨nm, ver, A ++ (u ++ (pl, v) :: w) :: B, pd⟩ = false := by
      unfold protocolDictOk
      simp [List.all_append, hsbad]
    rw [hbad]
    simp only [Bool.false_eq_true, if_false]
    have hidx : failingStepIdxs ok 0 (A ++ (u ++ (pl, v) :: w) :: B) =
        [A.length] := by
      rw [failingStepIdxs_append ok A _ 0, failingStepIdxs_all_ok ok A hA 0]
      unfold failingStepIdxs
      rw [hsbad]
      simp only [Bool.false_eq_true, if_false, Nat.zero_add]
      rw [failingStepIdxs_all_ok ok B hB (A.length + 1)]
      rfl
    rw [hidx]
    simp only [List.foldr_cons, List.foldr_nil, List.append_nil]
    rw [hg]
    show Except.error (stepSerExns ok errMsg A.length (u ++ (pl, v) :: w)) = _
    rw [stepSerExns_decomp ok errMsg A.length u w pl v hu hw hv]
  · unfold protocol_dict_remove_exceptions
    rw [List.foldlM_cons]
    simp only
    rw [hg]
    simp only
    rw [if_pos (by
      rw [List.map_append, List.map_cons]
      exact List.mem_append_right _ (List.mem_cons_self _ _))]
    rw [eraseKey_decomp pl v u w hpu hpw, set_append_middle]
    rfl
  · unfold serialize_protocol
    have hok : protocolDictOk ok ⟨nm, ver, A ++ (u ++ w) :: B, pd⟩ = true := by
      unfold protocolDictOk
      simp [List.all_append, hsok, hpd]
      exact ⟨List.all_eq_true.mp hA, List.all_eq_true.mp hB⟩
    rw [hok]
    rfl

/-- A serialization predicate failing exactly on numeric payloads. -/
def okNotNumber : Payload → Bool
  | .n _ => false
  | _ => true

/-- C1 witness: concrete bisection of a 2-step dictionary whose step 1
carries exactly one unserializable payload. -/
theorem c1_witness :
    serialize_protocol okNotNumber (fun _ => "not JSON serializable")
        ⟨some "w3", protocolClassVersion,
          [[("plugin_a", .s "ok")],
           [("plugin_c", .s "fine"), ("bad_plugin", .n 7)]],
          [("g", .s "h")]⟩ =
      .error [⟨1, "bad_plugin", .n 7, "not JSON serializable"⟩] ∧
    protocol_dict_remove_exceptions
        ⟨some "w3", protocolClassVersion,
          [[("plugin_a", .s "ok")],
           [("plugin_c", .s "fine"), ("bad_plugin", .n 7)]],
          [("g", .s "h")]⟩
        [⟨1, "bad_plugin", .n 7, "not JSON serializable"⟩] =
      .ok ⟨some "w3", protocolClassVersion,
        [[("plugin_a", .s "ok")], [("plugin_c", .s "fine")]],
        [("g", .s "h")]⟩ ∧
    serialize_protocol okNotNumber (fun _ => "not JSON serializable")
        ⟨some "w3", protocolClassVersion,
          [[("plugin_a", .s "ok")], [("plugin_c", .s "fine")]],
          [("g", .s "h")]⟩ = .ok () :=
  c1_serialize_isolation okNotNumber (fun _ => "not JSON serializable")
    (some "w3") protocolClassVersion
    [[("plugin_a", .s "ok")]] [] [("plugin_c", .s "fine")] []
    [("g", .s "h")] "bad_plugin" (.n 7)
    (by decide) (by decide) (by decide) (by decide) (by decide)
    (by decide) (by decide) (by decide)

end Microdrop
